import Mathlib

/-
Verification of the semantic ranking and embedding-cache engine of the news
search repository.  The frontend definitions below are translated from the
TypeScript under src/frontend; the backend service (embedding_service.py,
models.py, main.py) is not part of the source tree, so those components are
modelled from the specification and from the code excerpts quoted in the
repository documentation.
-/

namespace News

/-- An article as in NewsArticle of src/frontend/src/types/news.ts.  The
publication date is modelled as an already-parsed Unix timestamp, with
none standing for a null publishedAt. -/
structure Article where
  id : String
  title : String
  url : String
  source : String
  publishedAt : Option Int
  snippet : Option String
  thumbnail : Option String
deriving DecidableEq, Repr

/-- A scored candidate: an article id paired with its similarity score.
Scores are modelled as rationals. -/
structure Scored where
  sid : String
  score : ℚ
deriving DecidableEq, Repr

/-- Embedding vectors are rational-valued lists. -/
abbrev Vec := List ℚ

/-- Descending-score order on scored candidates: a comes no later than b when
b's score is at most a's. -/
def scoreDescRel (a b : Scored) : Prop := b.score ≤ a.score

instance : DecidableRel scoreDescRel :=
  fun a b => inferInstanceAs (Decidable (b.score ≤ a.score))

instance : IsTotal Scored scoreDescRel :=
  ⟨fun a b => le_total b.score a.score⟩

instance : IsTrans Scored scoreDescRel :=
  ⟨fun _ _ _ h1 h2 => le_trans h2 h1⟩

/-- Stable sort of scored candidates by score, highest first. -/
def sortByScoreDesc (l : List Scored) : List Scored :=
  List.insertionSort scoreDescRel l

/-- The acceptance test of the ranker: score at least min_similarity. -/
def passesMin (minSim : ℚ) (c : Scored) : Bool := decide (minSim ≤ c.score)

/-- Modelled from the spec: the Similarity Ranker of
backend/app/services/embedding_service.py (the file is absent from src; see
spec section 4.3 and the How It Works steps 6-7 of the semantic search
documentation).  Drop candidates scoring below min_similarity, stable-sort
the remainder by score descending with ties kept in candidate order, and
truncate to num entries. -/
def rankCandidates (cands : List Scored) (minSim : ℚ) (num : Nat) : List Scored :=
  (sortByScoreDesc (cands.filter (passesMin minSim))).take num

/-- The bundled correctness statement for the ranker: members are accepted
candidates with scores in the required interval, the output is sorted
non-increasingly, has at most num entries, contains every accepted candidate
when they all fit, and the sort keeps correctly ordered input pairs (ties
included) in their original order. -/
def rankerSpecProp (cands : List Scored) (minSim : ℚ) (num : Nat) : Prop :=
  (∀ c ∈ rankCandidates cands minSim num, minSim ≤ c.score ∧ c.score ≤ 1 ∧ c ∈ cands)
  ∧ (rankCandidates cands minSim num).Pairwise scoreDescRel
  ∧ (rankCandidates cands minSim num).length ≤ num
  ∧ ((cands.filter (passesMin minSim)).length ≤ num →
      ∀ c ∈ cands, minSim ≤ c.score → c ∈ rankCandidates cands minSim num)
  ∧ (∀ a b, [a, b].Sublist (cands.filter (passesMin minSim)) → scoreDescRel a b →
      [a, b].Sublist (sortByScoreDesc (cands.filter (passesMin minSim))))

/-- Modelled from the spec: step 2 of the Search Orchestrator
(backend/app/main.py, absent from src): collapse the raw article pool by id,
first occurrence wins.  The auxiliary carries the set of ids already kept. -/
def dedupAux : List Article → List String → List Article
  | [], _ => []
  | a :: rest, seen =>
    if a.id ∈ seen then dedupAux rest seen
    else a :: dedupAux rest (a.id :: seen)

/-- Deduplicate a raw article pool by id, keeping first occurrences. -/
def dedupById (pool : List Article) : List Article := dedupAux pool []

/-- Modelled from the spec: the Vector Cache Store of embedding_service.py
(absent from src): a row-ordered id list, the parallel vector matrix and a
dirty flag. -/
structure CacheStore where
  ids : List String
  vecs : List Vec
  dirty : Bool
deriving DecidableEq, Repr

/-- The empty cache produced by a cold start. -/
def emptyStore : CacheStore := { ids := [], vecs := [], dirty := false }

/-- Modelled from the spec: add_articles_to_index appends a single entry only
when its id is not already present, marking the store dirty. -/
def addEntry (s : CacheStore) (e : String × Vec) : CacheStore :=
  if e.1 ∈ s.ids then s
  else { ids := s.ids ++ [e.1], vecs := s.vecs ++ [e.2], dirty := true }

/-- Add a batch of (id, vector) entries to the cache store. -/
def addEntries (s : CacheStore) (es : List (String × Vec)) : CacheStore :=
  es.foldl addEntry s

/-- The vector stored for an id: the matrix row at the id's index. -/
def vectorFor (s : CacheStore) (x : String) : Option Vec :=
  match s.ids.indexOf? x with
  | some i => s.vecs[i]?
  | none => none

/-- Inner product of two vectors (cosine similarity for normalized inputs). -/
def dot (u v : Vec) : ℚ := (u.zip v).foldl (fun acc p => acc + p.1 * p.2) 0

/-- Modelled from the spec: search returns the k entries with highest inner
product against the query vector, sorted descending. -/
def searchStore (s : CacheStore) (q : Vec) (k : Nat) : List Scored :=
  (sortByScoreDesc ((s.ids.zip s.vecs).map (fun p => { sid := p.1, score := dot q p.2 }))).take k

/-- The pair of persisted artifacts: the vector matrix and the id-row
mapping, required together. -/
structure Artifacts where
  matrix : List Vec
  mapping : List String
deriving DecidableEq, Repr

/-- Modelled from the spec: _save_index persists the matrix and mapping as a
pair. -/
def persistArtifacts (s : CacheStore) : Artifacts :=
  { matrix := s.vecs, mapping := s.ids }

/-- The result of loading the cache at startup: the reconstructed store and
whether a fallback condition was logged.  There is no error variant; load
never surfaces an error to the caller. -/
structure LoadOutcome where
  store : CacheStore
  logged : Bool
deriving DecidableEq, Repr

/-- Modelled from the spec: cache loading in embedding_service.py (absent
from src).  none models missing or unreadable artifacts; a length mismatch
between matrix and mapping models corrupt artifacts.  Every such condition
yields an empty cache with a log entry, never a failure. -/
def loadStore : Option Artifacts → LoadOutcome
  | none => { store := emptyStore, logged := true }
  | some a =>
    if a.matrix.length = a.mapping.length then
      { store := { ids := a.mapping, vecs := a.matrix, dirty := false }, logged := false }
    else
      { store := emptyStore, logged := true }

/-- Consecutive chunks of size n, the last possibly shorter, with fuel
bounded by the list length; faithful to the slicing
articles[chunk_start:chunk_end] of rank_articles_by_similarity quoted in the
performance documentation.  A chunk size of zero degenerates to one chunk. -/
def chunksOfAux {α : Type} (n : Nat) : Nat → List α → List (List α)
  | _, [] => []
  | 0, a :: l => [a :: l]
  | fuel + 1, a :: l =>
    if 0 < n then (a :: l).take n :: chunksOfAux n fuel ((a :: l).drop n)
    else [a :: l]

/-- Split a list into consecutive chunks of size n. -/
def chunksOf {α : Type} (n : Nat) (l : List α) : List (List α) :=
  chunksOfAux n l.length l

/-- The accepted portion of a candidate list: entries scoring at least
min_similarity, in order. -/
def acceptedIn (minSim : ℚ) (l : List Scored) : List Scored :=
  l.filter (passesMin minSim)

/-- Modelled from the code excerpt quoted in the performance documentation:
the chunked fallback scan accumulates accepted results chunk by chunk and,
when a threshold t is active (Python truthiness: a nonzero value), stops
after the first chunk at which the accepted count reaches t. -/
def scanChunks (minSim : ℚ) (tOpt : Option Nat) : List (List Scored) → List Scored → List Scored
  | [], acc => acc
  | chunk :: rest, acc =>
    let acc2 := acc ++ acceptedIn minSim chunk
    match tOpt with
    | some t =>
      if 0 < t ∧ t ≤ acc2.length then acc2
      else scanChunks minSim tOpt rest acc2
    | none => scanChunks minSim tOpt rest acc2

/-- The chunked fallback scan over an article pool. -/
def chunkedScan (pool : List Scored) (chunkSize : Nat) (minSim : ℚ)
    (tOpt : Option Nat) : List Scored :=
  scanChunks minSim tOpt (chunksOf chunkSize pool) []

/-- Modelled from the main.py excerpt quoted in the performance
documentation: the effective early-stop threshold is the requested one when
truthy, otherwise num * 3 when min_similarity is positive and disabled
otherwise. -/
def autoThreshold (given : Option Nat) (num : Nat) (minSim : ℚ) : Option Nat :=
  match given with
  | some t =>
    if t ≠ 0 then some t
    else if 0 < minSim then some (num * 3) else none
  | none => if 0 < minSim then some (num * 3) else none

/-- The bundled early-stop statement: with an active threshold t the scan
result is exactly the accepted entries of the shortest chunk prefix reaching
t accepted results (or of the whole pool when none does), with no threshold
the whole pool is scanned, and the default threshold is num * 3 for a
positive min_similarity and disabled for min_similarity zero. -/
def earlyStopSpecProp (pool : List Scored) (chunkSize : Nat) (minSim : ℚ)
    (t num : Nat) : Prop :=
  (∃ k, k ≤ (chunksOf chunkSize pool).length ∧
    chunkedScan pool chunkSize minSim (some t) =
      acceptedIn minSim (((chunksOf chunkSize pool).take k).flatten) ∧
    (∀ j < k, (acceptedIn minSim (((chunksOf chunkSize pool).take j).flatten)).length < t) ∧
    (k < (chunksOf chunkSize pool).length →
      t ≤ (chunkedScan pool chunkSize minSim (some t)).length))
  ∧ chunkedScan pool chunkSize minSim none = acceptedIn minSim pool
  ∧ (0 < minSim → autoThreshold none num minSim = some (num * 3))
  ∧ (minSim = 0 → autoThreshold none num minSim = none)

/-- The state of the Text Encoder after its one-time initialization. -/
inductive EncoderState
  | ready
  | unavailable
deriving DecidableEq, Repr

/-- Modelled from the spec: the model loads exactly once; a failed load puts
the encoder in the permanent Unavailable state. -/
def initEncoder (initOk : Bool) : EncoderState :=
  if initOk then .ready else .unavailable

/-- The outcome of one encoding call. -/
inductive EncodeResult
  | vec (v : Vec)
  | encodingUnavailable
deriving DecidableEq, Repr

/-- Modelled from the spec: encoding is a pure function of the text and the
fixed weights emb when the encoder is ready; an unavailable encoder fails
every call with EncodingUnavailable and never retries initialization, so the
state is returned unchanged. -/
def encodeOne (st : EncoderState) (text : String) (emb : String → Vec) :
    EncodeResult × EncoderState :=
  match st with
  | .ready => (.vec (emb text), .ready)
  | .unavailable => (.encodingUnavailable, .unavailable)

/-- Run a sequence of encoding calls, threading the encoder state. -/
def encodeRun (emb : String → Vec) : EncoderState → List String → List EncodeResult × EncoderState
  | st, [] => ([], st)
  | st, t :: ts =>
    let r1 := encodeOne st t emb
    let r2 := encodeRun emb r1.2 ts
    (r1.1 :: r2.1, r2.2)

/-- The semantic search response: scored articles, their count and the
query, as in SemanticSearchResponse of src/frontend/src/types/news.ts. -/
structure SemResponse where
  articles : List Scored
  total : Nat
  query : String
deriving DecidableEq, Repr

/-- The outcome of the semantic path: a response, or the single
ServiceUnavailable error. -/
inductive SemOutcome
  | ok (r : SemResponse)
  | serviceUnavailable
deriving DecidableEq, Repr

/-- The text an article is embedded from: title concatenated with snippet. -/
def articleText (a : Article) : String := a.title ++ (a.snippet.getD "")

/-- Modelled from the spec: the semantic endpoint checks encoder
availability before doing any work and reports a single ServiceUnavailable
error with no partial results; with a ready encoder it scores the pool
against the query and ranks it. -/
def semanticSearchPath (st : EncoderState) (emb : String → Vec)
    (pool : List Article) (query : String) (minSim : ℚ) (num : Nat) : SemOutcome :=
  match st with
  | .unavailable => .serviceUnavailable
  | .ready =>
    let scored := pool.map (fun a => { sid := a.id, score := dot (emb query) (emb (articleText a)) : Scored })
    let ranked := rankCandidates scored minSim num
    .ok { articles := ranked, total := ranked.length, query := query }

/-- Whether a string occurs inside another, via splitOn. -/
def occursIn (q s : String) : Bool := decide ((s.splitOn q).length ≠ 1)

/-- Descending-date order on articles: the keyword-mode comparator of
filteredAndSortedArticles in src/frontend/src/app/page.tsx, where a null
publishedAt is given timestamp 0. -/
def dateKey (a : Article) : Int := a.publishedAt.getD 0

/-- The keyword-mode order relation: a comes no later than b when b's
timestamp key is at most a's. -/
def dateDescRel (a b : Article) : Prop := dateKey b ≤ dateKey a

instance : DecidableRel dateDescRel :=
  fun a b => inferInstanceAs (Decidable (dateKey b ≤ dateKey a))

instance : IsTotal Article dateDescRel :=
  ⟨fun a b => le_total (dateKey b) (dateKey a)⟩

instance : IsTrans Article dateDescRel :=
  ⟨fun _ _ _ h1 h2 => le_trans h2 h1⟩

/-- The client-side keyword sort of src/frontend/src/app/page.tsx lines
354-359: stable sort by parsed timestamp descending, null dates keyed 0. -/
def keywordSortDesc (l : List Article) : List Article :=
  List.insertionSort dateDescRel l

/-- The keyword search path: filter by query occurrence in the title and
sort by date, newest first.  It takes the encoder state only to record that
it never consults it. -/
def keywordSearchPath (st : EncoderState) (pool : List Article) (q : String) : List Article :=
  match st with
  | _ => keywordSortDesc (pool.filter (fun a => occursIn q a.title))

/-- A raw semantic search request before validation and defaulting, as
accepted by the endpoint: optional fields are absent when none. -/
structure RawRequest where
  q : String
  num : Option Nat
  minSimilarity : Option ℚ
  chunkSize : Option Nat
  earlyStopThreshold : Option Int
deriving DecidableEq, Repr

/-- A validated semantic search request with defaults applied. -/
structure SearchRequest where
  q : String
  num : Nat
  minSimilarity : ℚ
  chunkSize : Nat
  earlyStopThreshold : Option Int
deriving DecidableEq, Repr

/-- Validation failures rejected before touching the model or cache. -/
inductive RequestError
  | invalidQuery
  | invalidNum
  | invalidMinSimilarity
deriving DecidableEq, Repr

/-- Modelled from the spec: SemanticSearchRequest validation of
backend/app/models.py (absent from src): query of 1..200 characters, num
defaulting to 100 with maximum 500, min_similarity in 0..1 defaulting to 0,
chunk_size defaulting to 100, early_stop_threshold an optional integer. -/
def validateRequest (r : RawRequest) : Except RequestError SearchRequest :=
  if r.q.length < 1 ∨ 200 < r.q.length then .error .invalidQuery
  else if 500 < r.num.getD 100 then .error .invalidNum
  else if r.minSimilarity.getD 0 < 0 ∨ 1 < r.minSimilarity.getD 0 then .error .invalidMinSimilarity
  else .ok { q := r.q, num := r.num.getD 100, minSimilarity := r.minSimilarity.getD 0,
             chunkSize := r.chunkSize.getD 100, earlyStopThreshold := r.earlyStopThreshold }

/-- The search modes of the frontend. -/
inductive SearchMode
  | keyword
  | semantic
deriving DecidableEq, Repr

/-- A fetched search response as consumed by the frontend. -/
structure FetchResponse where
  articles : List Article
  total : Nat
deriving DecidableEq, Repr

/-- The visible result state of the search page
(src/frontend/src/app/page.tsx), restricted to the fields performSearch
touches. -/
structure PageState where
  articles : List Article
  total : Nat
  searchTime : ℚ
  lastSearchMode : Option SearchMode
  errorMsg : String
  loading : Bool
  lastSearchQuery : String
deriving DecidableEq, Repr

/-- Whether a query is blank: its trimmed form is empty, that is, every
character is whitespace.  This is the guard searchQuery.trim() of
performSearch. -/
def blankQuery (s : String) : Bool := s.data.all Char.isWhitespace

/-- The state transition of performSearch in src/frontend/src/app/page.tsx:
an empty trimmed query only sets the error message; otherwise the request
runs and either the success branch installs the response and the elapsed
time, or the catch branch records the failure message and resets articles,
total, search time and last search mode. -/
def performSearch (st : PageState) (searchQuery : String) (mode : SearchMode)
    (result : Except String FetchResponse) (elapsed : ℚ) : PageState :=
  if blankQuery searchQuery then { st with errorMsg := "enter a query" }
  else
    match result with
    | .ok resp =>
      { st with loading := false, errorMsg := "", lastSearchQuery := searchQuery,
                articles := resp.articles, total := resp.total,
                searchTime := elapsed, lastSearchMode := some mode }
    | .error msg =>
      { st with loading := false, errorMsg := msg, lastSearchQuery := searchQuery,
                articles := [], total := 0, searchTime := 0, lastSearchMode := none }

/-- An undated sample article. -/
def artNoDate : Article :=
  { id := "n", title := "undated", url := "u", source := "s",
    publishedAt := none, snippet := none, thumbnail := none }

/-- A sample article dated one millisecond before the Unix epoch. -/
def artOld : Article :=
  { id := "o", title := "old", url := "u", source := "s",
    publishedAt := some (-1), snippet := none, thumbnail := none }

/-- Sample scored candidates for concrete checks. -/
def sampleCands : List Scored :=
  [{ sid := "a", score := mkRat 1 2 }, { sid := "b", score := mkRat 4 5 },
   { sid := "c", score := mkRat 1 10 }]

/-- A sample pool for the chunked scan. -/
def samplePool : List Scored :=
  sampleCands ++ [{ sid := "d", score := mkRat 9 10 }]

/-- A sample article pool with a duplicated id. -/
def samplePoolArts : List Article :=
  [artNoDate, artOld,
   { id := "n", title := "dup", url := "u2", source := "s2",
     publishedAt := none, snippet := none, thumbnail := none }]

/-- A sample cache store with one entry. -/
def sampleStore : CacheStore := { ids := ["x"], vecs := [[1]], dirty := false }

/-- A sample cache store with two entries. -/
def sampleStore2 : CacheStore :=
  { ids := ["x", "y"], vecs := [[1, 0], [0, 1]], dirty := true }

/-- A corrupt pair of artifacts: matrix and mapping lengths disagree. -/
def badArtifacts : Artifacts := { matrix := [[1]], mapping := [] }

/-- A sample raw request with every optional field absent. -/
def sampleRaw : RawRequest :=
  { q := "ai", num := none, minSimilarity := none, chunkSize := none,
    earlyStopThreshold := none }

/-- A sample page state holding results of a previous search. -/
def samplePage : PageState :=
  { articles := [artOld], total := 1, searchTime := 2,
    lastSearchMode := some SearchMode.keyword, errorMsg := "", loading := true,
    lastSearchQuery := "old" }

/-- The validated request produced from sampleRaw. -/
def sampleReq : SearchRequest :=
  { q := "ai", num := 100, minSimilarity := 0, chunkSize := 100,
    earlyStopThreshold := none }

theorem dedupAux_sublist (l : List Article) :
    ∀ seen, (dedupAux l seen).Sublist l := by
  induction l with
  | nil => intro seen; simp [dedupAux]
  | cons a rest ih =>
    intro seen
    by_cases h : a.id ∈ seen
    · simpa [dedupAux, h] using (ih seen).cons a
    · simpa [dedupAux, h] using (ih (a.id :: seen)).cons₂ a

theorem mem_dedupAux (l : List Article) :
    ∀ seen a, a ∈ dedupAux l seen → a.id ∉ seen := by
  induction l with
  | nil => intro seen a ha; simp [dedupAux] at ha
  | cons b rest ih =>
    intro seen a ha
    by_cases h : b.id ∈ seen
    · rw [dedupAux, if_pos h] at ha
      exact ih seen a ha
    · rw [dedupAux, if_neg h] at ha
      rcases List.mem_cons.mp ha with h1 | h2
      · exact h1 ▸ h
      · have := ih (b.id :: seen) a h2
        intro hs
        exact this (List.mem_cons_of_mem _ hs)

theorem nodup_ids_dedupAux (l : List Article) :
    ∀ seen, ((dedupAux l seen).map (fun a => a.id)).Nodup := by
  induction l with
  | nil => intro seen; simp [dedupAux]
  | cons a rest ih =>
    intro seen
    by_cases h : a.id ∈ seen
    · simpa [dedupAux, h] using ih seen
    · rw [dedupAux, if_neg h]
      simp only [List.map_cons, List.nodup_cons]
      refine ⟨?_, ih (a.id :: seen)⟩
      intro hmem
      obtain ⟨b, hb, hid⟩ := List.mem_map.mp hmem
      exact mem_dedupAux rest (a.id :: seen) b hb (hid ▸ List.mem_cons_self _ _)

theorem find?_dedupAux (l : List Article) :
    ∀ seen x, x ∉ seen →
      (dedupAux l seen).find? (fun a => a.id == x) = l.find? (fun a => a.id == x) := by
  induction l with
  | nil => intro seen x _; rfl
  | cons a rest ih =>
    intro seen x hx
    by_cases h : a.id ∈ seen
    · have hne : ¬((fun b : Article => b.id == x) a = true) := by
        simp only [beq_iff_eq]
        intro he; exact hx (he ▸ h)
      rw [dedupAux, if_pos h,
        @List.find?_cons_of_neg Article (fun b => b.id == x) a rest hne, ih seen x hx]
    · rw [dedupAux, if_neg h]
      by_cases he : a.id = x
      · have hp : (fun b : Article => b.id == x) a = true := beq_iff_eq.mpr he
        rw [@List.find?_cons_of_pos Article (fun b => b.id == x) a
            (dedupAux rest (a.id :: seen)) hp,
          @List.find?_cons_of_pos Article (fun b => b.id == x) a rest hp]
      · have hp : ¬((fun b : Article => b.id == x) a = true) := by
          simp only [beq_iff_eq]; exact he
        have hx2 : x ∉ a.id :: seen := by
          intro hmem
          rcases List.mem_cons.mp hmem with h1 | h2
          · exact he h1.symm
          · exact hx h2
        rw [@List.find?_cons_of_neg Article (fun b => b.id == x) a
            (dedupAux rest (a.id :: seen)) hp,
          @List.find?_cons_of_neg Article (fun b => b.id == x) a rest hp, ih _ x hx2]

/-- Claim C1: for every scored candidate list and every request, the
Similarity Ranker returns exactly the candidates scoring at least
min_similarity, stably sorted by score descending and truncated to num
entries, and every returned score lies between min_similarity and 1
whenever the input scores are genuine cosine similarities bounded by 1. -/
theorem ranker_filters_sorts_truncates (cands : List Scored) (minSim : ℚ) (num : Nat)
    (hub : ∀ c ∈ cands, c.score ≤ 1) : rankerSpecProp cands minSim num := by
  refine ⟨?_, ?_, ?_, ?_, ?_⟩
  · intro c hc
    have hcS : c ∈ sortByScoreDesc (cands.filter (passesMin minSim)) :=
      List.mem_of_mem_take hc
    have hcF : c ∈ cands.filter (passesMin minSim) :=
      (List.perm_insertionSort scoreDescRel _).mem_iff.mp hcS
    have hmf := List.mem_filter.mp hcF
    exact ⟨of_decide_eq_true hmf.2, hub c hmf.1, hmf.1⟩
  · exact List.Pairwise.sublist (List.take_sublist _ _)
      (List.sorted_insertionSort scoreDescRel _)
  · exact List.length_take_le _ _
  · intro hlen c hc hscore
    have hS : (sortByScoreDesc (cands.filter (passesMin minSim))).length ≤ num := by
      have := (List.perm_insertionSort scoreDescRel
        (cands.filter (passesMin minSim))).length_eq
      rw [sortByScoreDesc, this]
      exact hlen
    have hcF : c ∈ cands.filter (passesMin minSim) :=
      List.mem_filter.mpr ⟨hc, decide_eq_true hscore⟩
    have hcS : c ∈ sortByScoreDesc (cands.filter (passesMin minSim)) :=
      (List.perm_insertionSort scoreDescRel _).mem_iff.mpr hcF
    rw [rankCandidates, List.take_of_length_le hS]
    exact hcS
  · intro a b hsub hr
    exact List.pair_sublist_insertionSort hr hsub

/-- Witness for claim C1 at a concrete candidate list. -/
theorem ranker_filters_sorts_truncates_witness :
    (∀ c ∈ sampleCands, c.score ≤ 1) ∧ rankerSpecProp sampleCands (mkRat 3 10) 2 :=
  ⟨by decide, ranker_filters_sorts_truncates sampleCands (mkRat 3 10) 2 (by decide)⟩

/-- Claim C2: deduplication keeps a sublist of the pool whose ids are
pairwise distinct, preserves exactly the set of ids, keeps the first
occurrence of each id, and leaves exactly one entry per id of the pool. -/
theorem dedup_first_occurrence_wins (pool : List Article) :
    (dedupById pool).Sublist pool
    ∧ ((dedupById pool).map (fun a => a.id)).Nodup
    ∧ (∀ x, x ∈ pool.map (fun a => a.id) ↔ x ∈ (dedupById pool).map (fun a => a.id))
    ∧ (∀ x, (dedupById pool).find? (fun a => a.id == x) = pool.find? (fun a => a.id == x))
    ∧ (∀ x, x ∈ pool.map (fun a => a.id) →
        List.count x ((dedupById pool).map (fun a => a.id)) = 1) := by
  have hfind : ∀ x, (dedupById pool).find? (fun a => a.id == x) =
      pool.find? (fun a => a.id == x) := by
    intro x
    exact find?_dedupAux pool [] x (List.not_mem_nil x)
  have hsub : (dedupById pool).Sublist pool := dedupAux_sublist pool []
  have hmem : ∀ x, x ∈ pool.map (fun a => a.id) ↔ x ∈ (dedupById pool).map (fun a => a.id) := by
    intro x
    constructor
    · intro hx
      obtain ⟨a, ha, hid⟩ := List.mem_map.mp hx
      have hsome : (pool.find? (fun b => b.id == x)).isSome :=
        List.find?_isSome.mpr ⟨a, ha, beq_iff_eq.mpr hid⟩
      obtain ⟨b, hb⟩ := Option.isSome_iff_exists.mp hsome
      have hbd : (dedupById pool).find? (fun c => c.id == x) = some b := by
        rw [hfind x]; exact hb
      have hbmem : b ∈ dedupById pool := List.mem_of_find?_eq_some hbd
      have hpb := List.find?_some hbd
      have hbid : b.id = x := by simpa using hpb
      exact List.mem_map.mpr ⟨b, hbmem, hbid⟩
    · intro hx
      obtain ⟨a, ha, hid⟩ := List.mem_map.mp hx
      exact List.mem_map.mpr ⟨a, hsub.mem ha, hid⟩
  refine ⟨hsub, nodup_ids_dedupAux pool [], hmem, hfind, ?_⟩
  intro x hx
  exact List.count_eq_one_of_mem (nodup_ids_dedupAux pool []) ((hmem x).mp hx)

/-- Witness for claim C2 at a concrete pool with a duplicated id. -/
theorem dedup_first_occurrence_wins_witness :
    (dedupById samplePoolArts).Sublist samplePoolArts
    ∧ ((dedupById samplePoolArts).map (fun a => a.id)).Nodup
    ∧ (∀ x, x ∈ samplePoolArts.map (fun a => a.id) ↔
        x ∈ (dedupById samplePoolArts).map (fun a => a.id))
    ∧ (∀ x, (dedupById samplePoolArts).find? (fun a => a.id == x) =
        samplePoolArts.find? (fun a => a.id == x))
    ∧ (∀ x, x ∈ samplePoolArts.map (fun a => a.id) →
        List.count x ((dedupById samplePoolArts).map (fun a => a.id)) = 1) :=
  dedup_first_occurrence_wins samplePoolArts

/-- Claim C3: add is idempotent on already-cached ids: adding an entry whose
id is already present leaves the store unchanged, in particular neither the
vector count nor the stored vector for that id moves. -/
theorem add_idempotent_on_cached_id (s : CacheStore) (x : String) (v : Vec)
    (h : x ∈ s.ids) :
    addEntries s [(x, v)] = s
    ∧ (addEntries s [(x, v)]).vecs.length = s.vecs.length
    ∧ vectorFor (addEntries s [(x, v)]) x = vectorFor s x := by
  have heq : addEntries s [(x, v)] = s := by
    simp [addEntries, addEntry, h]
  exact ⟨heq, by rw [heq], by rw [heq]⟩

/-- Witness for claim C3 at a concrete one-entry store. -/
theorem add_idempotent_on_cached_id_witness :
    "x" ∈ sampleStore.ids
    ∧ (addEntries sampleStore [("x", [2])] = sampleStore
      ∧ (addEntries sampleStore [("x", [2])]).vecs.length = sampleStore.vecs.length
      ∧ vectorFor (addEntries sampleStore [("x", [2])]) "x" = vectorFor sampleStore "x") :=
  ⟨by decide, add_idempotent_on_cached_id sampleStore "x" [2] (by decide)⟩

/-- Claim C4: the persistence round trip is exact: persisting a well-formed
store and loading the artifacts into a fresh store yields identical search
results for every query vector and every k. -/
theorem persist_load_roundtrip (s : CacheStore) (h : s.vecs.length = s.ids.length)
    (q : Vec) (k : Nat) :
    searchStore (loadStore (some (persistArtifacts s))).store q k = searchStore s q k := by
  have hload : (loadStore (some (persistArtifacts s))).store =
      { ids := s.ids, vecs := s.vecs, dirty := false } := by
    simp [loadStore, persistArtifacts, h]
  rw [hload]
  rfl

/-- Witness for claim C4 at a concrete two-entry store. -/
theorem persist_load_roundtrip_witness :
    sampleStore2.vecs.length = sampleStore2.ids.length
    ∧ searchStore (loadStore (some (persistArtifacts sampleStore2))).store [1, 1] 1 =
        searchStore sampleStore2 [1, 1] 1 :=
  ⟨by decide, persist_load_roundtrip sampleStore2 (by decide) [1, 1] 1⟩

/-- Claim C5: loading never fails startup: it is a total function into a
store outcome with no error variant, and missing or mismatched artifacts
yield the empty cache together with a logged fallback. -/
theorem load_never_fails :
    (loadStore none).store = emptyStore
    ∧ (loadStore none).logged = true
    ∧ (∀ a : Artifacts, a.matrix.length ≠ a.mapping.length →
        (loadStore (some a)).store = emptyStore ∧ (loadStore (some a)).logged = true) := by
  refine ⟨rfl, rfl, ?_⟩
  intro a hmis
  simp [loadStore, hmis]

/-- Witness for claim C5 at a concrete corrupt artifact pair. -/
theorem load_never_fails_witness :
    badArtifacts.matrix.length ≠ badArtifacts.mapping.length
    ∧ (loadStore (some badArtifacts)).store = emptyStore
    ∧ (loadStore (some badArtifacts)).logged = true :=
  ⟨by decide, load_never_fails.2.2 badArtifacts (by decide)⟩

theorem flatten_chunksOfAux {α : Type} (n : Nat) :
    ∀ (fuel : Nat) (l : List α), (chunksOfAux n fuel l).flatten = l := by
  intro fuel
  induction fuel with
  | zero => intro l; cases l <;> simp [chunksOfAux]
  | succ fuel ih =>
    intro l
    cases l with
    | nil => simp [chunksOfAux]
    | cons a l2 =>
      by_cases h : 0 < n
      · simp [chunksOfAux, h, ih, List.take_append_drop]
      · simp [chunksOfAux, h]

theorem flatten_chunksOf {α : Type} (n : Nat) (l : List α) :
    (chunksOf n l).flatten = l :=
  flatten_chunksOfAux n l.length l

theorem scanChunks_none_eq (minSim : ℚ) :
    ∀ (chunks : List (List Scored)) (acc : List Scored),
      scanChunks minSim none chunks acc = acc ++ acceptedIn minSim chunks.flatten := by
  intro chunks
  induction chunks with
  | nil => intro acc; simp [scanChunks, acceptedIn]
  | cons c rest ih =>
    intro acc
    simp [scanChunks, ih, acceptedIn, List.filter_append, List.append_assoc]

theorem scanChunks_early_stop (minSim : ℚ) (t : Nat) (ht : 0 < t) :
    ∀ (chunks : List (List Scored)) (acc : List Scored), acc.length < t →
      ∃ k, k ≤ chunks.length ∧
        scanChunks minSim (some t) chunks acc =
          acc ++ acceptedIn minSim (chunks.take k).flatten ∧
        (∀ j < k, (acc ++ acceptedIn minSim (chunks.take j).flatten).length < t) ∧
        (k < chunks.length →
          t ≤ (acc ++ acceptedIn minSim (chunks.take k).flatten).length) := by
  intro chunks
  induction chunks with
  | nil =>
    intro acc _
    refine ⟨0, le_refl 0, by simp [scanChunks, acceptedIn], ?_, ?_⟩
    · intro j hj; omega
    · intro h; simp at h
  | cons c rest ih =>
    intro acc hacc
    by_cases hstop : t ≤ (acc ++ acceptedIn minSim c).length
    · refine ⟨1, by simp, ?_, ?_, ?_⟩
      · have : scanChunks minSim (some t) (c :: rest) acc = acc ++ acceptedIn minSim c := by
          rw [scanChunks]
          simp only [if_pos (And.intro ht hstop)]
        rw [this]
        simp [acceptedIn]
      · intro j hj
        have hj0 : j = 0 := by omega
        subst hj0
        simpa [acceptedIn] using hacc
      · intro _
        simpa [acceptedIn] using hstop
    · have hstop2 : (acc ++ acceptedIn minSim c).length < t := by omega
      obtain ⟨k, hk, heq, hlt, hreach⟩ := ih (acc ++ acceptedIn minSim c) hstop2
      have hstep : scanChunks minSim (some t) (c :: rest) acc =
          scanChunks minSim (some t) rest (acc ++ acceptedIn minSim c) := by
        rw [scanChunks]
        simp only [if_neg (fun hc : 0 < t ∧ t ≤ (acc ++ acceptedIn minSim c).length => hstop hc.2)]
      refine ⟨k + 1, by simpa using Nat.succ_le_succ hk, ?_, ?_, ?_⟩
      · rw [hstep, heq]
        simp [List.take_succ_cons, acceptedIn, List.filter_append, List.append_assoc]
      · intro j hj
        cases j with
        | zero => simpa [acceptedIn] using hacc
        | succ j2 =>
          have := hlt j2 (by omega)
          simpa [List.take_succ_cons, acceptedIn, List.filter_append,
            List.append_assoc] using this
      · intro hklen
        have := hreach (by simpa using Nat.lt_of_succ_lt_succ hklen)
        simpa [List.take_succ_cons, acceptedIn, List.filter_append,
          List.append_assoc] using this

/-- Claim C6: with a positive threshold t active, the chunked fallback scan
returns exactly the accepted entries of the shortest chunk prefix whose
accepted count reaches t, scanning no chunk beyond it; with no threshold the
whole pool is scanned; and the unspecified threshold defaults to num times 3
for positive min_similarity and to disabled for min_similarity zero. -/
theorem chunked_scan_early_stop_boundary (pool : List Scored) (chunkSize : Nat)
    (minSim : ℚ) (t num : Nat) (ht : 0 < t) :
    earlyStopSpecProp pool chunkSize minSim t num := by
  refine ⟨?_, ?_, ?_, ?_⟩
  · obtain ⟨k, hk, heq, hlt, hreach⟩ :=
      scanChunks_early_stop minSim t ht (chunksOf chunkSize pool) [] (by simpa using ht)
    refine ⟨k, hk, ?_, ?_, ?_⟩
    · simpa [chunkedScan] using heq
    · intro j hj
      simpa using hlt j hj
    · intro h
      have h2 := hreach h
      rw [chunkedScan]
      rw [heq]
      simpa using h2
  · rw [chunkedScan, scanChunks_none_eq, flatten_chunksOf]
    simp
  · intro h
    simp [autoThreshold, h]
  · intro h
    simp [autoThreshold, h]

/-- Witness for claim C6 at a concrete pool, chunk size 2 and threshold 1. -/
theorem chunked_scan_early_stop_boundary_witness :
    0 < 1 ∧ earlyStopSpecProp samplePool 2 (mkRat 3 10) 1 5 :=
  ⟨by decide, chunked_scan_early_stop_boundary samplePool 2 (mkRat 3 10) 1 5 (by decide)⟩

theorem encodeRun_unavailable (emb : String → Vec) (texts : List String) :
    (encodeRun emb EncoderState.unavailable texts).2 = EncoderState.unavailable
    ∧ ∀ r ∈ (encodeRun emb EncoderState.unavailable texts).1,
        r = EncodeResult.encodingUnavailable := by
  induction texts with
  | nil => exact ⟨rfl, by intro r hr; simp [encodeRun] at hr⟩
  | cons tx ts ih =>
    constructor
    · simpa [encodeRun, encodeOne] using ih.1
    · intro r hr
      simp only [encodeRun, encodeOne] at hr
      rcases List.mem_cons.mp hr with h | h
      · exact h
      · exact ih.2 r h

/-- Claim C7: a failed initialization leaves the encoder permanently
Unavailable: every later call in any run fails with EncodingUnavailable and
the state never leaves Unavailable; the semantic path then reports the
single ServiceUnavailable outcome, which differs from the empty result set;
the keyword path is independent of the encoder state. -/
theorem encoder_unavailable_is_permanent :
    initEncoder false = EncoderState.unavailable
    ∧ (∀ (emb : String → Vec) (texts : List String),
        (encodeRun emb EncoderState.unavailable texts).2 = EncoderState.unavailable)
    ∧ (∀ (emb : String → Vec) (texts : List String),
        ∀ r ∈ (encodeRun emb EncoderState.unavailable texts).1,
          r = EncodeResult.encodingUnavailable)
    ∧ (∀ (emb : String → Vec) (pool : List Article) (q : String) (minSim : ℚ) (num : Nat),
        semanticSearchPath EncoderState.unavailable emb pool q minSim num =
          SemOutcome.serviceUnavailable)
    ∧ (∀ q : String, SemOutcome.serviceUnavailable ≠
        SemOutcome.ok { articles := [], total := 0, query := q })
    ∧ (∀ (st : EncoderState) (pool : List Article) (q : String),
        keywordSearchPath st pool q = keywordSearchPath EncoderState.ready pool q) := by
  refine ⟨rfl, ?_, ?_, ?_, ?_, ?_⟩
  · intro emb texts
    exact (encodeRun_unavailable emb texts).1
  · intro emb texts
    exact (encodeRun_unavailable emb texts).2
  · intro emb pool q minSim num
    rfl
  · intro q h
    exact SemOutcome.noConfusion h
  · intro st pool q
    cases st <;> rfl

/-- Claim C8: a validated semantic request has a query of 1 to 200
characters, num at most 500 defaulting to 100, min_similarity in the unit
interval defaulting to 0, chunk_size defaulting to 100, and passes
early_stop_threshold through as an optional integer. -/
theorem request_validation_defaults (r : RawRequest) (req : SearchRequest)
    (h : validateRequest r = Except.ok req) :
    (1 ≤ req.q.length ∧ req.q.length ≤ 200)
    ∧ req.num ≤ 500
    ∧ (0 ≤ req.minSimilarity ∧ req.minSimilarity ≤ 1)
    ∧ (r.num = none → req.num = 100)
    ∧ (r.minSimilarity = none → req.minSimilarity = 0)
    ∧ (r.chunkSize = none → req.chunkSize = 100)
    ∧ req.earlyStopThreshold = r.earlyStopThreshold := by
  rw [validateRequest] at h
  split_ifs at h with h1 h2 h3
  have h4 := Except.ok.inj h
  subst h4
  push_neg at h1 h2 h3
  refine ⟨⟨h1.1, h1.2⟩, h2, ⟨h3.1, h3.2⟩, ?_, ?_, ?_, rfl⟩
  · intro hn; rw [hn]; rfl
  · intro hn; rw [hn]; rfl
  · intro hn; rw [hn]; rfl

/-- Witness for claim C8 at a concrete raw request with all optional fields
absent. -/
theorem request_validation_defaults_witness :
    validateRequest sampleRaw = Except.ok sampleReq
    ∧ ((1 ≤ sampleReq.q.length ∧ sampleReq.q.length ≤ 200)
      ∧ sampleReq.num ≤ 500
      ∧ (0 ≤ sampleReq.minSimilarity ∧ sampleReq.minSimilarity ≤ 1)
      ∧ (sampleRaw.num = none → sampleReq.num = 100)
      ∧ (sampleRaw.minSimilarity = none → sampleReq.minSimilarity = 0)
      ∧ (sampleRaw.chunkSize = none → sampleReq.chunkSize = 100)
      ∧ sampleReq.earlyStopThreshold = sampleRaw.earlyStopThreshold) :=
  ⟨rfl, request_validation_defaults sampleRaw sampleReq rfl⟩

/-- Claim C9: when the frontend search request fails with any message, the
visible result state is fully reset: articles empty, total 0, search time 0
and last search mode cleared, with the failure message installed, regardless
of what the previous state held. -/
theorem search_failure_resets_results (st : PageState) (q : String)
    (mode : SearchMode) (msg : String) (elapsed : ℚ)
    (hq : blankQuery q = false) :
    (performSearch st q mode (Except.error msg) elapsed).articles = []
    ∧ (performSearch st q mode (Except.error msg) elapsed).total = 0
    ∧ (performSearch st q mode (Except.error msg) elapsed).searchTime = 0
    ∧ (performSearch st q mode (Except.error msg) elapsed).lastSearchMode = none
    ∧ (performSearch st q mode (Except.error msg) elapsed).errorMsg = msg := by
  simp [performSearch, hq]

/-- Witness for claim C9 at a concrete prior state holding stale results. -/
theorem search_failure_resets_results_witness :
    blankQuery "ai" = false
    ∧ ((performSearch samplePage "ai" SearchMode.semantic (Except.error "boom") 2).articles = []
      ∧ (performSearch samplePage "ai" SearchMode.semantic (Except.error "boom") 2).total = 0
      ∧ (performSearch samplePage "ai" SearchMode.semantic (Except.error "boom") 2).searchTime = 0
      ∧ (performSearch samplePage "ai" SearchMode.semantic (Except.error "boom") 2).lastSearchMode = none
      ∧ (performSearch samplePage "ai" SearchMode.semantic (Except.error "boom") 2).errorMsg = "boom") :=
  ⟨by decide,
    search_failure_resets_results samplePage "ai" SearchMode.semantic "boom" 2 (by decide)⟩

/-- Claim C10 fails as stated: an article dated before the Unix epoch has a
negative timestamp, so the undated article keyed 0 sorts ahead of it in the
descending keyword order; here the dated artOld ends up after the undated
artNoDate. -/
theorem keyword_sort_nulls_counterexample :
    artOld.publishedAt.isSome = true
    ∧ artNoDate.publishedAt = none
    ∧ dateKey artNoDate = 0
    ∧ keywordSortDesc [artNoDate, artOld] = [artNoDate, artOld] := by decide

/-- Claim C10 (amended): a null publishedAt is keyed 0, and in the sorted
output everything at or after an undated article has key at most 0; hence
every article whose date parses to a positive timestamp precedes every
undated article, while articles dated at or before the epoch need not. -/
theorem keyword_sort_nulls_amended (l : List Article) (a b : Article)
    (hsub : [a, b].Sublist (keywordSortDesc l)) (ha : a.publishedAt = none) :
    dateKey a = 0 ∧ dateKey b ≤ 0 := by
  have hkey : dateKey a = 0 := by rw [dateKey, ha]; rfl
  have hsorted : (keywordSortDesc l).Pairwise dateDescRel :=
    List.sorted_insertionSort dateDescRel l
  have hpair : ([a, b] : List Article).Pairwise dateDescRel :=
    List.Pairwise.sublist hsub hsorted
  have hr : dateDescRel a b := (List.pairwise_cons.mp hpair).1 b (List.mem_cons_self b [])
  exact ⟨hkey, by rw [← hkey]; exact hr⟩

/-- Witness for the amended claim C10 at a concrete list. -/
theorem keyword_sort_nulls_amended_witness :
    [artNoDate, artOld].Sublist (keywordSortDesc [artNoDate, artOld])
    ∧ artNoDate.publishedAt = none
    ∧ (dateKey artNoDate = 0 ∧ dateKey artOld ≤ 0) :=
  ⟨by decide, by decide,
    keyword_sort_nulls_amended [artNoDate, artOld] artNoDate artOld (by decide) (by decide)⟩

end News
